import Mathlib

/-!
# Verification of the comment-preserving insertion engine

Shallow embedding of `scripts/content_inserter.py` (class `ContentInserter`,
dataclasses `CommentedRange`, `InsertionPoint`, `MergeOptions`) and of the
attribution-time text search `CommentManager._find_text_in_document` from
`scripts/comment_manager.py`.

Text is modelled as `List Char`; Google-Docs absolute character indices are
`Nat`.  Fallible Python code (exceptions) is modelled with `Except`; the
outcome of each external API call made by the orchestrator is an explicit
input (`Editor` record), so the orchestrator itself is a total function.
-/

set_option maxRecDepth 4096

namespace GDocs

/-! ## Generic list helpers (take/drop arithmetic used throughout) -/

theorem take_len_append (a b : List Char) : (a ++ b).take a.length = a := by
  simp [List.take_append_eq_append_take]

theorem drop_len_append (a b : List Char) : (a ++ b).drop a.length = b := by
  simp [List.drop_append_eq_append_drop]

theorem take_at_append (a b : List Char) (n : Nat) (h : n = a.length) :
    (a ++ b).take n = a := by
  subst h; exact take_len_append a b

theorem drop_at_append (a b : List Char) (n : Nat) (h : n = a.length) :
    (a ++ b).drop n = b := by
  subst h; exact drop_len_append a b

theorem drop_len_add_append (a b : List Char) (i : Nat) :
    (a ++ b).drop (a.length + i) = b.drop i := by
  simp [List.drop_append_eq_append_drop]

/-- Taking a window that stays inside the left part of an append. -/
theorem take_drop_append_left (a b : List Char) (i n : Nat)
    (h : i + n ≤ a.length) :
    ((a ++ b).drop i).take n = (a.drop i).take n := by
  rw [List.drop_append_eq_append_drop]
  have hi : i ≤ a.length := Nat.le_of_add_right_le h
  have h0 : i - a.length = 0 := Nat.sub_eq_zero_of_le hi
  rw [h0, List.drop_zero, List.take_append_eq_append_take]
  have hlen : n ≤ (a.drop i).length := by
    simp [List.length_drop]; omega
  have h1 : n - (a.drop i).length = 0 := Nat.sub_eq_zero_of_le hlen
  simp only [List.length_drop] at h1
  simp [h1]

/-! ## Substring search

`isPrefixL p l` is Python's `l.startswith(p)`; `substrIdx tgt hay` is
Python's `hay.find(tgt)` returning `none` instead of `-1` (so
`(substrIdx tgt hay).isSome` is Python's `tgt in hay`, and the value is
`hay.index(tgt)`). -/

def isPrefixL : List Char → List Char → Bool
  | [], _ => true
  | _ :: _, [] => false
  | a :: as, b :: bs => a = b && isPrefixL as bs

def substrIdx (tgt : List Char) : List Char → Option Nat
  | [] => if tgt = [] then some 0 else none
  | c :: t => if isPrefixL tgt (c :: t) then some 0
              else (substrIdx tgt t).map (· + 1)

theorem isPrefixL_iff_take (p : List Char) : ∀ (l : List Char),
    isPrefixL p l = true ↔ l.take p.length = p := by
  induction p with
  | nil => intro l; simp [isPrefixL]
  | cons a as ih =>
    intro l
    cases l with
    | nil => simp [isPrefixL]
    | cons b bs =>
      simp only [isPrefixL, List.length_cons, List.take_succ_cons,
        Bool.and_eq_true, decide_eq_true_eq, List.cons.injEq]
      constructor
      · rintro ⟨h1, h2⟩; exact ⟨h1.symm, (ih bs).mp h2⟩
      · rintro ⟨h1, h2⟩; exact ⟨h1.symm, (ih bs).mpr h2⟩

theorem substrIdx_sound (tgt : List Char) : ∀ (hay : List Char) (i : Nat),
    substrIdx tgt hay = some i →
    i + tgt.length ≤ hay.length ∧ (hay.drop i).take tgt.length = tgt := by
  intro hay
  induction hay with
  | nil =>
    intro i h
    simp only [substrIdx] at h
    by_cases ht : tgt = []
    · simp [ht] at h ⊢; omega
    · simp [ht] at h
  | cons c t ih =>
    intro i h
    simp only [substrIdx] at h
    by_cases hp : isPrefixL tgt (c :: t) = true
    · simp only [hp, if_true, Option.some.injEq] at h
      subst h
      have := (isPrefixL_iff_take tgt (c :: t)).mp hp
      refine ⟨?_, by simpa using this⟩
      have : ((c :: t).take tgt.length).length = tgt.length := by rw [this]
      simp only [List.length_take] at this
      omega
    · simp only [hp, if_false] at h
      cases hsub : substrIdx tgt t with
      | none => rw [hsub] at h; simp at h
      | some j =>
        rw [hsub] at h
        simp at h
        obtain ⟨h1, h2⟩ := ih j hsub
        have hi : i = j + 1 := by omega
        subst hi
        constructor
        · simp only [List.length_cons]; omega
        · simpa using h2

theorem substrIdx_complete (tgt : List Char) : ∀ (hay : List Char) (i : Nat),
    (hay.drop i).take tgt.length = tgt → (substrIdx tgt hay).isSome := by
  intro hay
  induction hay with
  | nil =>
    intro i h
    simp only [List.drop_nil, List.take_nil] at h
    simp [substrIdx, h.symm]
  | cons c t ih =>
    intro i h
    by_cases hp : isPrefixL tgt (c :: t) = true
    · simp [substrIdx, hp]
    · cases i with
      | zero =>
        rw [List.drop_zero] at h
        exact absurd ((isPrefixL_iff_take tgt (c :: t)).mpr h) hp
      | succ j =>
        have := ih j (by simpa using h)
        simp only [substrIdx, hp, if_false]
        simpa [Option.isSome_map] using this

/-! ## Python string truthiness and helpers -/

def truthyL : Option (List Char) → Bool
  | some (_ :: _) => true
  | _ => false

def truthyS : Option String → Bool
  | some s => !s.isEmpty
  | none => false

/-- Python whitespace for `str.strip()`. -/
def isPyWs (c : Char) : Bool :=
  c = ' ' || c = '\t' || c = '\n' || c = '\r' || c = '\x0b' || c = '\x0c'

/-- Python `str.strip()`. -/
def pyStrip (l : List Char) : List Char :=
  ((l.dropWhile isPyWs).reverse.dropWhile isPyWs).reverse

/-- Python `str.lower()` (per-character). -/
def lowerL (l : List Char) : List Char := l.map Char.toLower

/-! ## `ContentInserter._format_content_for_insertion`

Two steps, mirroring the two `if` statements of the Python method:
prepend `"\n\n"` unless the content starts with a newline, then append
`"\n\n"` unless it ends with one. -/

def ensureLeadingNewlines (content : List Char) : List Char :=
  if content.head? = some '\n' then content else '\n' :: '\n' :: content

def ensureTrailingNewlines (content : List Char) : List Char :=
  if content.getLast? = some '\n' then content else content ++ ['\n', '\n']

def format_content_for_insertion (content : List Char) : List Char :=
  ensureTrailingNewlines (ensureLeadingNewlines content)

theorem ensureLeading_cons (s : List Char) :
    ∃ t, ensureLeadingNewlines s = '\n' :: t := by
  unfold ensureLeadingNewlines
  by_cases h : s.head? = some '\n'
  · cases s with
    | nil => simp at h
    | cons a t =>
      simp only [List.head?_cons, Option.some.injEq] at h
      subst h
      exact ⟨t, by simp⟩
  · exact ⟨'\n' :: s, by simp [h]⟩

theorem format_content_head (s : List Char) :
    (format_content_for_insertion s).head? = some '\n' := by
  unfold format_content_for_insertion
  obtain ⟨t, ht⟩ := ensureLeading_cons s
  rw [ht]
  unfold ensureTrailingNewlines
  by_cases h : ('\n' :: t).getLast? = some '\n' <;> simp [h]

theorem format_content_getLast (s : List Char) :
    (format_content_for_insertion s).getLast? = some '\n' := by
  unfold format_content_for_insertion ensureTrailingNewlines
  by_cases h : (ensureLeadingNewlines s).getLast? = some '\n'
  · rw [if_pos h]; exact h
  · simp only [h, if_false]
    rw [List.getLast?_append]
    simp

/-! ## Mutation primitives (`batchUpdate` requests)

One constructor per request kind built by `ContentInserter`; the rgb color
components are the exact decimal literals of the source, as rationals. -/

structure RgbColor where
  red : ℚ
  green : ℚ
  blue : ℚ
deriving DecidableEq

inductive Request where
  | insertText (index : Nat) (tabId : Option String) (text : List Char)
  | deleteContentRange (startIndex endIndex : Nat)
  | updateParagraphStyle (startIndex endIndex : Nat) (namedStyleType : String)
  | updateTextStyle (startIndex endIndex : Nat) (italic : Bool) (foregroundColor : RgbColor)
deriving DecidableEq

/-- Semantics of one request on a flat text buffer.  Style requests do not
change the character content. -/
def applyRequest (buf : List Char) : Request → List Char
  | .insertText i _ s => buf.take i ++ s ++ buf.drop i
  | .deleteContentRange a b => buf.take a ++ buf.drop b
  | .updateParagraphStyle _ _ _ => buf
  | .updateTextStyle _ _ _ _ => buf

/-- A batch applied in order: each request is interpreted against the state
after all prior requests. -/
def applyRequests (buf : List Char) (reqs : List Request) : List Char :=
  reqs.foldl applyRequest buf

/-! ## `CommentedRange` -/

structure CommentedRange where
  start_index : Nat
  end_index : Nat
  comment_id : String
  comment_content : String
  anchor_text : List Char
deriving DecidableEq

/-- `CommentedRange.contains`: inclusive on both bounds. -/
def CommentedRange.containsIdx (cr : CommentedRange) (index : Nat) : Bool :=
  cr.start_index ≤ index && index ≤ cr.end_index

/-- `CommentedRange.overlaps`. -/
def CommentedRange.overlapsRange (cr : CommentedRange) (start stop : Nat) : Bool :=
  !(stop < cr.start_index || cr.end_index < start)

/-! ## `ContentInserter._insert_with_comment_preservation`

The request list built by the method (the `index` argument of the Python
method is unused by it; the insert position is the midpoint of the range). -/

def insert_with_comment_preservation_requests
    (cr : CommentedRange) (new_text : List Char) : List Request :=
  let start_idx := cr.start_index
  let end_idx := cr.end_index
  let insert_position := start_idx + (end_idx - start_idx) / 2
  let req1 : List Request := [.insertText insert_position none new_text]
  let delete_after_start := insert_position + new_text.length
  let delete_after_end := end_idx + new_text.length
  let req2 : List Request :=
    if delete_after_start < delete_after_end then
      [.deleteContentRange delete_after_start delete_after_end]
    else []
  let req3 : List Request :=
    if start_idx < insert_position then
      [.deleteContentRange start_idx insert_position]
    else []
  req1 ++ req2 ++ req3

theorem take_append_add (a b : List Char) (m : Nat) :
    (a ++ b).take (a.length + m) = a ++ b.take m := by
  rw [List.take_append_eq_append_take]
  congr 1
  · exact List.take_of_length_le (by omega)
  · congr 1; omega

theorem drop_append_add (a b : List Char) (m : Nat) :
    (a ++ b).drop (a.length + m) = b.drop m :=
  drop_len_add_append a b m

/-- Claim C8: the content padding formatter is idempotent — for every string
`s`, `format(format(s)) = format(s)`; applying it to already-padded content
adds no second pair of blank lines at either end. -/
theorem padding_formatter_idempotent (s : List Char) :
    format_content_for_insertion (format_content_for_insertion s)
      = format_content_for_insertion s := by
  have h1 := format_content_head s
  have h2 := format_content_getLast s
  conv_lhs => rw [format_content_for_insertion]
  rw [ensureLeadingNewlines, if_pos h1, ensureTrailingNewlines, if_pos h2]

/-- Claim C1: Case B round-trip.  For a commented range `[start,end)` (with
`start < end`, i.e. anchored text `T` non-empty) holding `T` in a buffer
`P ++ T ++ S`, applying the generated plan (insert `U` at the midpoint, delete
the shifted tail, delete the head) — each step interpreted against the state
after all prior steps — yields `P ++ U ++ S`: the content at the shifted
original location is exactly `U`, no character of `T` survives, and the
total length changes by exactly `length U - length T`. -/
theorem case_b_roundtrip (P T S U : List Char) (cid cc : String)
    (anch : List Char) (hT : T ≠ []) :
    applyRequests (P ++ T ++ S)
        (insert_with_comment_preservation_requests
          ⟨P.length, P.length + T.length, cid, cc, anch⟩ U)
      = P ++ U ++ S
    ∧ ((applyRequests (P ++ T ++ S)
        (insert_with_comment_preservation_requests
          ⟨P.length, P.length + T.length, cid, cc, anch⟩ U)).drop
            P.length).take U.length = U
    ∧ (applyRequests (P ++ T ++ S)
        (insert_with_comment_preservation_requests
          ⟨P.length, P.length + T.length, cid, cc, anch⟩ U)).length
        + T.length
      = (P ++ T ++ S).length + U.length := by
  have hTlen : 0 < T.length := List.length_pos.mpr hT
  have hk_lt : T.length / 2 < T.length := Nat.div_lt_self hTlen one_lt_two
  have hmain : applyRequests (P ++ T ++ S)
      (insert_with_comment_preservation_requests
        ⟨P.length, P.length + T.length, cid, cc, anch⟩ U) = P ++ U ++ S := by
    set k := T.length / 2 with hkdef
    have hreqs : insert_with_comment_preservation_requests
        ⟨P.length, P.length + T.length, cid, cc, anch⟩ U
        = [Request.insertText (P.length + k) none U]
          ++ [Request.deleteContentRange (P.length + k + U.length)
                (P.length + T.length + U.length)]
          ++ (if P.length < P.length + k then
                [Request.deleteContentRange P.length (P.length + k)] else []) := by
      simp only [insert_with_comment_preservation_requests, Nat.add_sub_cancel_left]
      rw [if_pos (by omega : P.length + k + U.length < P.length + T.length + U.length)]
    rw [hreqs]
    have hA : (T.take k).length = k := by
      rw [List.length_take]; omega
    have hB : (T.drop k).length = T.length - k := List.length_drop k T
    by_cases hk0 : 0 < k
    · rw [if_pos (by omega)]
      show applyRequest (applyRequest (applyRequest (P ++ T ++ S)
          (Request.insertText (P.length + k) none U))
          (Request.deleteContentRange (P.length + k + U.length)
            (P.length + T.length + U.length)))
          (Request.deleteContentRange P.length (P.length + k)) = P ++ U ++ S
      have hsplit : T = T.take k ++ T.drop k := (List.take_append_drop k T).symm
      have step1 : applyRequest (P ++ T ++ S)
          (Request.insertText (P.length + k) none U)
          = (P ++ T.take k) ++ (U ++ (T.drop k ++ S)) := by
        show (P ++ T ++ S).take (P.length + k) ++ U ++ (P ++ T ++ S).drop (P.length + k)
            = (P ++ T.take k) ++ (U ++ (T.drop k ++ S))
        have hform : P ++ T ++ S = P ++ (T ++ S) := List.append_assoc P T S
        rw [hform, take_append_add, drop_append_add]
        have htk : (T ++ S).take k = T.take k := by
          rw [List.take_append_eq_append_take,
            Nat.sub_eq_zero_of_le (le_of_lt hk_lt)]
          simp
        have htd : (T ++ S).drop k = T.drop k ++ S := by
          rw [List.drop_append_eq_append_drop,
            Nat.sub_eq_zero_of_le (le_of_lt hk_lt), List.drop_zero]
        rw [htk, htd]
        simp [List.append_assoc]
      have step2 : applyRequest ((P ++ T.take k) ++ (U ++ (T.drop k ++ S)))
          (Request.deleteContentRange (P.length + k + U.length)
            (P.length + T.length + U.length))
          = (P ++ T.take k) ++ (U ++ S) := by
        show ((P ++ T.take k) ++ (U ++ (T.drop k ++ S))).take
              (P.length + k + U.length)
            ++ ((P ++ T.take k) ++ (U ++ (T.drop k ++ S))).drop
              (P.length + T.length + U.length)
            = (P ++ T.take k) ++ (U ++ S)
        have hre : (P ++ T.take k) ++ (U ++ (T.drop k ++ S))
            = ((P ++ T.take k) ++ U) ++ (T.drop k ++ S) := by
          simp [List.append_assoc]
        rw [hre]
        have hlen1 : ((P ++ T.take k) ++ U).length = P.length + k + U.length := by
          rw [List.length_append, List.length_append, hA]
        rw [take_at_append _ _ _ hlen1.symm]
        have hre2 : ((P ++ T.take k) ++ U) ++ (T.drop k ++ S)
            = (((P ++ T.take k) ++ U) ++ T.drop k) ++ S := by
          simp [List.append_assoc]
        rw [hre2]
        have hlen2 : (((P ++ T.take k) ++ U) ++ T.drop k).length
            = P.length + T.length + U.length := by
          rw [List.length_append, List.length_append, List.length_append, hA, hB]
          omega
        rw [drop_at_append _ _ _ hlen2.symm]
        simp [List.append_assoc]
      have step3 : applyRequest ((P ++ T.take k) ++ (U ++ S))
          (Request.deleteContentRange P.length (P.length + k))
          = P ++ U ++ S := by
        show ((P ++ T.take k) ++ (U ++ S)).take P.length
            ++ ((P ++ T.take k) ++ (U ++ S)).drop (P.length + k)
            = P ++ U ++ S
        have hre : (P ++ T.take k) ++ (U ++ S) = P ++ (T.take k ++ (U ++ S)) := by
          simp [List.append_assoc]
        rw [hre, take_len_append, drop_append_add]
        rw [drop_at_append _ _ _ hA.symm]
        simp [List.append_assoc]
      rw [step1, step2, step3]
    · have hk : k = 0 := by omega
      rw [if_neg (by omega), hk]
      show applyRequest (applyRequest (P ++ T ++ S)
          (Request.insertText (P.length + 0) none U))
          (Request.deleteContentRange (P.length + 0 + U.length)
            (P.length + T.length + U.length)) = P ++ U ++ S
      have step1 : applyRequest (P ++ T ++ S)
          (Request.insertText (P.length + 0) none U)
          = P ++ (U ++ (T ++ S)) := by
        show (P ++ T ++ S).take (P.length + 0) ++ U ++ (P ++ T ++ S).drop (P.length + 0)
            = P ++ (U ++ (T ++ S))
        have hform : P ++ T ++ S = P ++ (T ++ S) := List.append_assoc P T S
        rw [hform, Nat.add_zero, take_len_append, drop_len_append]
        simp [List.append_assoc]
      have step2 : applyRequest (P ++ (U ++ (T ++ S)))
          (Request.deleteContentRange (P.length + 0 + U.length)
            (P.length + T.length + U.length))
          = P ++ U ++ S := by
        show (P ++ (U ++ (T ++ S))).take (P.length + 0 + U.length)
            ++ (P ++ (U ++ (T ++ S))).drop (P.length + T.length + U.length)
            = P ++ U ++ S
        have hre : P ++ (U ++ (T ++ S)) = (P ++ U) ++ (T ++ S) := by
          simp [List.append_assoc]
        rw [hre]
        rw [take_at_append _ _ _ (by simp : P.length + 0 + U.length = (P ++ U).length)]
        have hre2 : (P ++ U) ++ (T ++ S) = ((P ++ U) ++ T) ++ S := by
          simp [List.append_assoc]
        rw [hre2]
        rw [drop_at_append _ _ _
          (by simp; omega : P.length + T.length + U.length = ((P ++ U) ++ T).length)]
      rw [step1, step2]
  refine ⟨hmain, ?_, ?_⟩
  · rw [hmain, List.append_assoc, drop_len_append, List.take_append_eq_append_take]
    simp
  · rw [hmain]; simp; omega

/-- Claim C1 witness: a concrete instance with `P = "xy"`, `T = "abcd"`,
`S = "z"`, `U = "KLM"`. -/
theorem case_b_roundtrip_witness :
    (['a','b','c','d'] : List Char) ≠ []
    ∧ (applyRequests (['x','y'] ++ ['a','b','c','d'] ++ ['z'])
        (insert_with_comment_preservation_requests
          ⟨2, 2 + 4, "c1", "note", ['a','b','c','d']⟩ ['K','L','M'])
        = ['x','y'] ++ ['K','L','M'] ++ ['z']) :=
  ⟨by decide,
    (case_b_roundtrip ['x','y'] ['a','b','c','d'] ['z'] ['K','L','M']
      "c1" "note" ['a','b','c','d'] (by decide)).1⟩

/-- Claim C9: every `deleteContentRange` emitted by the Case B sequencer has
`startIndex < endIndex`; for a degenerate range the plan degrades to
insert-only (length 0) or insert plus a single tail delete (length 1). -/
theorem case_b_deletes_nonempty (cr : CommentedRange) (U : List Char) :
    (∀ a b : Nat,
      Request.deleteContentRange a b ∈ insert_with_comment_preservation_requests cr U →
      a < b)
    ∧ (cr.end_index ≤ cr.start_index →
        insert_with_comment_preservation_requests cr U
          = [Request.insertText cr.start_index none U])
    ∧ (cr.end_index = cr.start_index + 1 →
        insert_with_comment_preservation_requests cr U
          = [Request.insertText cr.start_index none U,
             Request.deleteContentRange (cr.start_index + U.length)
               (cr.start_index + 1 + U.length)]) := by
  refine ⟨?_, ?_, ?_⟩
  · intro a b hmem
    simp only [insert_with_comment_preservation_requests] at hmem
    by_cases h2 : cr.start_index + (cr.end_index - cr.start_index) / 2 + U.length
        < cr.end_index + U.length
    · by_cases h3 : cr.start_index < cr.start_index + (cr.end_index - cr.start_index) / 2
      · rw [if_pos h2, if_pos h3] at hmem
        simp only [List.append_assoc, List.cons_append, List.nil_append,
          List.mem_cons, List.not_mem_nil, or_false] at hmem
        rcases hmem with h | h | h
        · exact absurd h (by simp)
        · cases h; omega
        · cases h; omega
      · rw [if_pos h2, if_neg h3] at hmem
        simp only [List.append_assoc, List.cons_append, List.nil_append,
          List.mem_cons, List.not_mem_nil, or_false] at hmem
        rcases hmem with h | h
        · exact absurd h (by simp)
        · cases h; omega
    · by_cases h3 : cr.start_index < cr.start_index + (cr.end_index - cr.start_index) / 2
      · rw [if_neg h2, if_pos h3] at hmem
        simp only [List.append_assoc, List.cons_append, List.nil_append,
          List.mem_cons, List.not_mem_nil, or_false] at hmem
        rcases hmem with h | h
        · exact absurd h (by simp)
        · cases h; omega
      · rw [if_neg h2, if_neg h3] at hmem
        simp only [List.append_assoc, List.cons_append, List.nil_append,
          List.mem_cons, List.not_mem_nil, or_false] at hmem
        exact absurd hmem (by simp)
  · intro hle
    have h0 : cr.end_index - cr.start_index = 0 := Nat.sub_eq_zero_of_le hle
    simp only [insert_with_comment_preservation_requests, h0]
    rw [if_neg (by omega), if_neg (by omega)]
    simp
  · intro h1
    have h0 : cr.end_index - cr.start_index = 1 := by omega
    simp only [insert_with_comment_preservation_requests, h0]
    rw [if_pos (by omega), if_neg (by omega)]
    simp [h1]

/-- Claim C9 witness: for the range `[1,5)` and replacement `"uv"`, the plan
contains `deleteContentRange 5 7`, and indeed `5 < 7`. -/
theorem case_b_deletes_nonempty_witness :
    Request.deleteContentRange 5 7
        ∈ insert_with_comment_preservation_requests ⟨1, 5, "c", "x", ['a']⟩ ['u','v']
    ∧ 5 < 7 :=
  ⟨by decide,
    (case_b_deletes_nonempty ⟨1, 5, "c", "x", ['a']⟩ ['u','v']).1 5 7 (by decide)⟩

/-! ## Document model

A Google-Docs body is a list of structural elements; a paragraph holds
elements that may carry a `startIndex` and a text run, a table holds rows of
cells, each cell holding nested structural elements.  `Option` encodes a
possibly-missing dictionary key (`dict.get`). -/

structure ParaElement where
  startIndex : Option Nat
  textRun : Option (List Char)
deriving DecidableEq

inductive SElem where
  | paragraph (elements : List ParaElement) (endIndex : Option Nat)
  | table (rows : List (List (List SElem))) (endIndex : Option Nat)

def SElem.endIndexOpt : SElem → Option Nat
  | .paragraph _ e => e
  | .table _ e => e

/-! ## `ContentInserter._find_text_range`

Scan paragraphs in order; the first text run whose content contains the
target yields `(startIndex + offset, startIndex + offset + length target)`;
tables are recursed into cell by cell. -/

def findInParagraph (tgt : List Char) : List ParaElement → Option (Nat × Nat)
  | [] => none
  | e :: rest =>
    match e.textRun with
    | some txt =>
      match substrIdx tgt txt with
      | some off =>
        some (e.startIndex.getD 0 + off, e.startIndex.getD 0 + off + tgt.length)
      | none => findInParagraph tgt rest
    | none => findInParagraph tgt rest

mutual

def findTextRange (tgt : List Char) : List SElem → Option (Nat × Nat)
  | [] => none
  | SElem.paragraph es _ :: rest =>
    match findInParagraph tgt es with
    | some r => some r
    | none => findTextRange tgt rest
  | SElem.table rows _ :: rest =>
    match findInRows tgt rows with
    | some r => some r
    | none => findTextRange tgt rest

def findInRows (tgt : List Char) : List (List (List SElem)) → Option (Nat × Nat)
  | [] => none
  | row :: rest =>
    match findInRow tgt row with
    | some r => some r
    | none => findInRows tgt rest

def findInRow (tgt : List Char) : List (List SElem) → Option (Nat × Nat)
  | [] => none
  | cell :: rest =>
    match findTextRange tgt cell with
    | some r => some r
    | none => findInRow tgt rest

end

/-! ## Comments and `ContentInserter.find_commented_ranges` -/

structure Comment where
  comment_id : String
  content : String
  anchor : Option (List Char)
deriving DecidableEq

def find_commented_ranges (content_elements : List SElem) :
    List Comment → List CommentedRange
  | [] => []
  | c :: rest =>
    match c.anchor with
    | none => find_commented_ranges content_elements rest
    | some anch =>
      if anch = [] then find_commented_ranges content_elements rest
      else
        match findTextRange anch content_elements with
        | some (s, e) =>
          ⟨s, e, c.comment_id, c.content, anch⟩
            :: find_commented_ranges content_elements rest
        | none => find_commented_ranges content_elements rest

/-! ## Sections and `ContentInserter.calculate_insertion_point` -/

structure SectionInfo where
  heading : List Char
  start_index : Option Nat
  end_index : Option Nat
deriving DecidableEq

/-- Python `section_name.lower() in heading.lower()`. -/
def lowerContainsIn (hay tgt : List Char) : Bool :=
  (substrIdx (lowerL tgt) (lowerL hay)).isSome

/-- `ContentInserter._find_section_boundaries`: the first section whose
non-empty heading contains the name (case-insensitively) and that carries
both boundary indices wins. -/
def find_section_boundaries : List SectionInfo → List Char → Option (Nat × Nat)
  | [], _ => none
  | s :: rest, name =>
    if !s.heading.isEmpty && lowerContainsIn s.heading name then
      match s.start_index, s.end_index with
      | some a, some b => some (a, b)
      | _, _ => find_section_boundaries rest name
    else find_section_boundaries rest name

structure InsertionPoint where
  index : Nat
  section_name : Option (List Char) := none
  safe : Bool := true
  affected_comments : List String := []
  strategy : String := "after"
  reason : String := ""
deriving DecidableEq

/-- `doc.get('body', {}).get('content', [{}])[-1].get('endIndex', 1)`:
`none` models a document with no body/content key (defaulting to `[{}]`,
whose last element has no `endIndex`, hence `1`); an empty content list makes
the `[-1]` subscript raise an `IndexError`. -/
def doc_end_index : Option (List SElem) → Except String Nat
  | none => .ok 1
  | some [] => .error "list index out of range"
  | some (e :: rest) =>
    .ok (((e :: rest).getLast (List.cons_ne_nil e rest)).endIndexOpt.getD 1)

def document_end_point (content : Option (List SElem)) (reason : String) :
    Except String InsertionPoint := do
  let docEnd ← doc_end_index content
  .ok { index := docEnd - 1, section_name := none, safe := true,
        affected_comments := [], strategy := "new_section", reason := reason }

/-- `ContentInserter.calculate_insertion_point`, parameterised by the already
fetched document content, section analysis and comments (the Python method
fetches them through the editor).  The commented ranges are resolved
internally via `find_commented_ranges` (which reads the content list with
default `[]`). -/
def calculate_insertion_point (content : Option (List SElem))
    (sections : List SectionInfo) (comments : List Comment)
    (section_name : Option (List Char)) (strategy : String) :
    Except String InsertionPoint :=
  let commented_ranges := find_commented_ranges (content.getD []) comments
  if truthyL section_name then
    let name := section_name.getD []
    match find_section_boundaries sections name with
    | some (_section_start, section_end) =>
      if strategy = "safe" then
        let insertion_idx := section_end - 1
        let affected :=
          (commented_ranges.filter (fun cr => cr.containsIdx insertion_idx)).map
            (fun cr => cr.comment_id)
        .ok { index := insertion_idx, section_name := some name,
              safe := affected.length == 0, affected_comments := affected,
              strategy := "after",
              reason := "End of section \"" ++ String.mk name ++ "\"" }
      else
        document_end_point content "Inserting at document end"
    | none =>
      document_end_point content
        ("Section \"" ++ String.mk name ++ "\" not found, inserting at document end")
  else
    document_end_point content "Inserting at document end"

def exceptToOption {ε α : Type} : Except ε α → Option α
  | .ok a => some a
  | .error _ => none

theorem length_filter_ne_zero_iff (p : CommentedRange → Bool) :
    ∀ l : List CommentedRange,
    ((l.filter p).length ≠ 0 ↔ ∃ cr ∈ l, p cr = true) := by
  intro l
  induction l with
  | nil => simp
  | cons a t ih =>
    by_cases hpa : p a = true
    · simp [List.filter_cons, hpa]
    · simp only [List.filter_cons, hpa, if_false, Bool.false_eq_true, ih,
        List.mem_cons]
      constructor
      · rintro ⟨cr, hmem, hp⟩; exact ⟨cr, Or.inr hmem, hp⟩
      · rintro ⟨cr, hmem, hp⟩
        rcases hmem with rfl | hmem
        · exact absurd hp hpa
        · exact ⟨cr, hmem, hp⟩

theorem document_end_point_ok (content : Option (List SElem)) (reason : String)
    (ip : InsertionPoint) (h : document_end_point content reason = .ok ip) :
    ip.safe = true ∧ ip.affected_comments = [] ∧ ip.strategy = "new_section"
    ∧ ip.section_name = none := by
  unfold document_end_point at h
  cases hd : doc_end_index content with
  | error e =>
    rw [hd] at h
    simp [Bind.bind, Except.bind] at h
  | ok n =>
    rw [hd] at h
    simp only [Bind.bind, Except.bind, Except.ok.injEq] at h
    subst h
    exact ⟨rfl, rfl, rfl, rfl⟩

/-- Claim C5 counterexample: for an "empty document" (no body/content key,
modelled by `none`) the planner with no section hint returns offset `0`
(`doc_end` defaults to `1`, and the code returns `doc_end - 1`), not `1`;
and for a document with zero blocks (`some []`) the `[-1]` subscript raises
an `IndexError` instead of returning an insertion point at all. -/
theorem empty_document_offset_counterexample :
    (exceptToOption (calculate_insertion_point none [] [] none "safe")).map
        InsertionPoint.index = some 0
    ∧ exceptToOption (calculate_insertion_point (some []) [] [] none "safe")
        = none := by
  constructor <;> rfl

/-- Claim C5 amended: with no section hint, a document with a missing
body/content key yields offset `0 = 1 - 1` with `safe = true` and no affected
comments; a document with zero blocks raises (`IndexError`, surfacing as an
error, not an insertion point); a minimal real empty document — whose last
element has `endIndex = 2` — yields offset `1` with `safe = true` and no
affected comments. -/
theorem empty_document_offset_amended :
    calculate_insertion_point none [] [] none "safe"
      = .ok { index := 0, section_name := none, safe := true,
              affected_comments := [], strategy := "new_section",
              reason := "Inserting at document end" }
    ∧ calculate_insertion_point (some []) [] [] none "safe"
      = .error "list index out of range"
    ∧ calculate_insertion_point (some [SElem.paragraph [] (some 2)]) [] [] none "safe"
      = .ok { index := 1, section_name := none, safe := true,
              affected_comments := [], strategy := "new_section",
              reason := "Inserting at document end" } :=
  ⟨rfl, rfl, rfl⟩

/-- The anchor text of the sample commented range. -/
def anchorC2 : List Char := ['a', 'b', 'c', 'd', 'e', 'f']

/-- A one-paragraph document whose single text run `"abcdef"` starts at
index 5 (last structural element ends at 10). -/
def sampleDocC2 : List SElem :=
  [SElem.paragraph [⟨some 5, some anchorC2⟩] (some 10)]

def sampleCommentsC2 : List Comment :=
  [⟨"c1", "note", some anchorC2⟩]

def rangeC2 : CommentedRange := ⟨5, 11, "c1", "note", anchorC2⟩

theorem find_ranges_sampleC2 :
    find_commented_ranges sampleDocC2 sampleCommentsC2 = [rangeC2] := by
  simp [find_commented_ranges, findTextRange, findInParagraph, substrIdx,
    isPrefixL, sampleDocC2, sampleCommentsC2, anchorC2, rangeC2]

/-- Claim C2 counterexample: with no section hint, the planner targets
`doc_end - 1 = 9`, which lies inside the resolved commented range `[5,11]`
(inclusive `contains`), yet it reports `safe = true` with no affected
comments — the claimed iff fails for the no-section branch. -/
theorem planner_safety_counterexample :
    calculate_insertion_point (some sampleDocC2) [] sampleCommentsC2 none "safe"
      = .ok { index := 9, section_name := none, safe := true,
              affected_comments := [], strategy := "new_section",
              reason := "Inserting at document end" }
    ∧ find_commented_ranges sampleDocC2 sampleCommentsC2 = [rangeC2]
    ∧ rangeC2.containsIdx 9 = true :=
  ⟨rfl, find_ranges_sampleC2, by decide⟩

/-- Claim C2 amended: the safety classification (`safe = false` iff the
target offset lies in some resolved commented range, inclusive bounds, with
`affected_comments` listing exactly the ids of the containing ranges) holds
exactly when a truthy section hint is given, found, and the strategy is
`'safe'`; in the hint-absent and hint-not-found branches the planner always
reports `safe = true` with an empty affected list, regardless of the
commented ranges. -/
theorem planner_safety_amended (content : Option (List SElem))
    (sections : List SectionInfo) (comments : List Comment)
    (section_name : Option (List Char)) (ip : InsertionPoint)
    (hok : calculate_insertion_point content sections comments section_name
      "safe" = .ok ip) :
    (∀ a b : Nat, truthyL section_name = true →
      find_section_boundaries sections (section_name.getD []) = some (a, b) →
      ip.index = b - 1
      ∧ (ip.safe = false ↔
          ∃ cr ∈ find_commented_ranges (content.getD []) comments,
            cr.containsIdx (b - 1) = true)
      ∧ ip.affected_comments
        = ((find_commented_ranges (content.getD []) comments).filter
            (fun cr => cr.containsIdx (b - 1))).map (fun cr => cr.comment_id))
    ∧ ((truthyL section_name = false
        ∨ find_section_boundaries sections (section_name.getD []) = none) →
      ip.safe = true ∧ ip.affected_comments = []) := by
  constructor
  · intro a b htru hfind
    rw [calculate_insertion_point] at hok
    simp only [htru, if_true, hfind] at hok
    simp only [Except.ok.injEq] at hok
    subst hok
    refine ⟨rfl, ?_, rfl⟩
    show ((((find_commented_ranges (content.getD []) comments).filter
        (fun cr => cr.containsIdx (b - 1))).map
          (fun cr => cr.comment_id)).length == 0) = false ↔ _
    rw [beq_eq_false_iff_ne, List.length_map]
    exact length_filter_ne_zero_iff _ _
  · intro hcase
    rcases hcase with hfalse | hnone
    · rw [calculate_insertion_point] at hok
      simp only [hfalse, Bool.false_eq_true, if_false] at hok
      have := document_end_point_ok _ _ _ hok
      exact ⟨this.1, this.2.1⟩
    · rw [calculate_insertion_point] at hok
      by_cases htru : truthyL section_name = true
      · simp only [htru, if_true, hnone] at hok
        have := document_end_point_ok _ _ _ hok
        exact ⟨this.1, this.2.1⟩
      · simp only [Bool.not_eq_true] at htru
        simp only [htru, Bool.false_eq_true, if_false] at hok
        have := document_end_point_ok _ _ _ hok
        exact ⟨this.1, this.2.1⟩

def nameNotesC2 : List Char := ['N', 'o', 't', 'e', 's']

def sampleSectionsC2 : List SectionInfo :=
  [⟨nameNotesC2, some 2, some 10⟩]

def wipC2 : InsertionPoint :=
  { index := 9, section_name := some nameNotesC2, safe := false,
    affected_comments := ["c1"], strategy := "after",
    reason := "End of section \"" ++ String.mk nameNotesC2 ++ "\"" }

theorem calc_sampleC2 :
    calculate_insertion_point (some sampleDocC2) sampleSectionsC2
      sampleCommentsC2 (some nameNotesC2) "safe" = .ok wipC2 := by
  simp only [calculate_insertion_point, Option.getD_some, find_ranges_sampleC2]
  rfl

/-- Claim C2 witness: a found section ending at 10 gives target offset 9,
which lies inside the commented range `[5,11]`, and the planner indeed
reports `safe = false` with exactly `["c1"]` affected. -/
theorem planner_safety_amended_witness :
    wipC2.safe = false ∧ wipC2.affected_comments = ["c1"] := by
  have h := planner_safety_amended (some sampleDocC2) sampleSectionsC2
    sampleCommentsC2 (some nameNotesC2) wipC2 calc_sampleC2
  have h2 := h.1 2 10 rfl (by decide)
  refine ⟨?_, ?_⟩
  · rw [h2.2.1]
    refine ⟨rangeC2, ?_, by decide⟩
    rw [show (some sampleDocC2).getD [] = sampleDocC2 from rfl,
      find_ranges_sampleC2]
    exact List.mem_singleton.mpr rfl
  · rw [h2.2.2, show (some sampleDocC2).getD [] = sampleDocC2 from rfl,
      find_ranges_sampleC2]
    decide

/-! ## Flattened document text and well-formed index assignment

`flattenElems` is the document's text in reading order (text runs of
paragraphs, recursing into table cells).  `checkElems base elems = some p`
states that every text run's `startIndex` is exactly the cumulative position
of its content in the flattened text starting from `base` (the absolute
offset of the document's first character), and returns the end position.
The claims about "the document substring at `[start,end)`" are read against
this index assignment. -/

def flattenPara : List ParaElement → List Char
  | [] => []
  | e :: rest => e.textRun.getD [] ++ flattenPara rest

mutual

def flattenElems : List SElem → List Char
  | [] => []
  | SElem.paragraph es _ :: rest => flattenPara es ++ flattenElems rest
  | SElem.table rows _ :: rest => flattenRows rows ++ flattenElems rest

def flattenRows : List (List (List SElem)) → List Char
  | [] => []
  | row :: rest => flattenRow row ++ flattenRows rest

def flattenRow : List (List SElem) → List Char
  | [] => []
  | cell :: rest => flattenElems cell ++ flattenRow rest

end

def checkPara (pos : Nat) : List ParaElement → Option Nat
  | [] => some pos
  | e :: rest =>
    match e.textRun with
    | some txt =>
      if e.startIndex = some pos then checkPara (pos + txt.length) rest
      else none
    | none => checkPara pos rest

mutual

def checkElems (pos : Nat) : List SElem → Option Nat
  | [] => some pos
  | SElem.paragraph es _ :: rest =>
    match checkPara pos es with
    | some p => checkElems p rest
    | none => none
  | SElem.table rows _ :: rest =>
    match checkRows pos rows with
    | some p => checkElems p rest
    | none => none

def checkRows (pos : Nat) : List (List (List SElem)) → Option Nat
  | [] => some pos
  | row :: rest =>
    match checkRow pos row with
    | some p => checkRows p rest
    | none => none

def checkRow (pos : Nat) : List (List SElem) → Option Nat
  | [] => some pos
  | cell :: rest =>
    match checkElems pos cell with
    | some p => checkRow p rest
    | none => none

end

/-- A found range `[s,e)` is correct for target `tgt` against flattened text
`flat` whose first character has absolute position `pos`. -/
def RangeOK (tgt flat : List Char) (pos s e : Nat) : Prop :=
  e = s + tgt.length ∧ pos ≤ s ∧ s - pos + tgt.length ≤ flat.length
  ∧ (flat.drop (s - pos)).take tgt.length = tgt

theorem RangeOK_append_left (tgt a b : List Char) (pos s e : Nat)
    (h : RangeOK tgt a pos s e) : RangeOK tgt (a ++ b) pos s e := by
  obtain ⟨h1, h2, h3, h4⟩ := h
  refine ⟨h1, h2, ?_, ?_⟩
  · rw [List.length_append]; omega
  · rw [take_drop_append_left a b _ _ h3]; exact h4

theorem RangeOK_append_right (tgt a b : List Char) (pos s e : Nat)
    (h : RangeOK tgt b (pos + a.length) s e) : RangeOK tgt (a ++ b) pos s e := by
  obtain ⟨h1, h2, h3, h4⟩ := h
  refine ⟨h1, by omega, ?_, ?_⟩
  · rw [List.length_append]; omega
  · have hm : s - pos = a.length + (s - (pos + a.length)) := by omega
    rw [hm, drop_append_add]
    exact h4

theorem checkPara_sound (tgt : List Char) : ∀ (es : List ParaElement) (pos p2 : Nat),
    checkPara pos es = some p2 →
    p2 = pos + (flattenPara es).length
    ∧ ∀ s e, findInParagraph tgt es = some (s, e) →
        RangeOK tgt (flattenPara es) pos s e := by
  intro es
  induction es with
  | nil =>
    intro pos p2 h
    simp only [checkPara, Option.some.injEq] at h
    refine ⟨by simp [flattenPara, h], ?_⟩
    intro s e hf
    simp [findInParagraph] at hf
  | cons el rest ih =>
    intro pos p2 h
    simp only [checkPara] at h
    cases htr : el.textRun with
    | none =>
      rw [htr] at h
      obtain ⟨ihlen, ihfind⟩ := ih pos p2 h
      constructor
      · simp [flattenPara, htr, ihlen]
      · intro s e hf
        simp only [findInParagraph, htr] at hf
        have := ihfind s e hf
        simpa [flattenPara, htr] using this
    | some txt =>
      simp only [htr] at h
      by_cases hst : el.startIndex = some pos
      · rw [if_pos hst] at h
        obtain ⟨ihlen, ihfind⟩ := ih (pos + txt.length) p2 h
        constructor
        · simp [flattenPara, htr, ihlen]; omega
        · intro s e hf
          simp only [findInParagraph, htr] at hf
          cases hsi : substrIdx tgt txt with
          | some off =>
            rw [hsi] at hf
            simp only [Option.some.injEq, Prod.mk.injEq] at hf
            obtain ⟨hs, he⟩ := hf
            obtain ⟨hb, hsub⟩ := substrIdx_sound tgt txt off hsi
            rw [hst] at hs he
            simp only [Option.getD_some] at hs he
            show RangeOK tgt (el.textRun.getD [] ++ flattenPara rest) pos s e
            rw [htr]
            apply RangeOK_append_left
            simp only [Option.getD_some]
            refine ⟨by omega, by omega, by omega, ?_⟩
            have hoff : s - pos = off := by omega
            rw [hoff]; exact hsub
          | none =>
            rw [hsi] at hf
            have := ihfind s e hf
            show RangeOK tgt (el.textRun.getD [] ++ flattenPara rest) pos s e
            rw [htr]
            apply RangeOK_append_right
            simpa using this
      · rw [if_neg hst] at h
        simp at h

mutual

theorem checkElems_sound (tgt : List Char) :
    ∀ (elems : List SElem) (pos p2 : Nat), checkElems pos elems = some p2 →
      p2 = pos + (flattenElems elems).length
      ∧ ∀ s e, findTextRange tgt elems = some (s, e) →
          RangeOK tgt (flattenElems elems) pos s e
  | [] => by
    intro pos p2 h
    simp only [checkElems, Option.some.injEq] at h
    refine ⟨by simp [flattenElems, h], ?_⟩
    intro s e hf
    simp [findTextRange] at hf
  | SElem.paragraph es ei :: rest => by
    intro pos p2 h
    simp only [checkElems] at h
    cases hcp : checkPara pos es with
    | none => simp only [hcp] at h; exact Option.noConfusion h
    | some p =>
      simp only [hcp] at h
      obtain ⟨hplen, hpfind⟩ := checkPara_sound tgt es pos p hcp
      obtain ⟨ihlen, ihfind⟩ := checkElems_sound tgt rest p p2 h
      constructor
      · simp only [flattenElems, List.length_append]; omega
      · intro s e hf
        simp only [findTextRange] at hf
        simp only [flattenElems]
        cases hfp : findInParagraph tgt es with
        | some r =>
          simp only [hfp, Option.some.injEq] at hf
          subst hf
          exact RangeOK_append_left tgt _ _ pos s e (hpfind s e hfp)
        | none =>
          simp only [hfp] at hf
          apply RangeOK_append_right
          rw [← hplen]
          exact ihfind s e hf
  | SElem.table rows ei :: rest => by
    intro pos p2 h
    simp only [checkElems] at h
    cases hcp : checkRows pos rows with
    | none => simp only [hcp] at h; exact Option.noConfusion h
    | some p =>
      simp only [hcp] at h
      obtain ⟨hplen, hpfind⟩ := checkRows_sound tgt rows pos p hcp
      obtain ⟨ihlen, ihfind⟩ := checkElems_sound tgt rest p p2 h
      constructor
      · simp only [flattenElems, List.length_append]; omega
      · intro s e hf
        simp only [findTextRange] at hf
        simp only [flattenElems]
        cases hfp : findInRows tgt rows with
        | some r =>
          simp only [hfp, Option.some.injEq] at hf
          subst hf
          exact RangeOK_append_left tgt _ _ pos s e (hpfind s e hfp)
        | none =>
          simp only [hfp] at hf
          apply RangeOK_append_right
          rw [← hplen]
          exact ihfind s e hf

theorem checkRows_sound (tgt : List Char) :
    ∀ (rows : List (List (List SElem))) (pos p2 : Nat),
      checkRows pos rows = some p2 →
      p2 = pos + (flattenRows rows).length
      ∧ ∀ s e, findInRows tgt rows = some (s, e) →
          RangeOK tgt (flattenRows rows) pos s e
  | [] => by
    intro pos p2 h
    simp only [checkRows, Option.some.injEq] at h
    refine ⟨by simp [flattenRows, h], ?_⟩
    intro s e hf
    simp [findInRows] at hf
  | row :: rest => by
    intro pos p2 h
    simp only [checkRows] at h
    cases hcp : checkRow pos row with
    | none => simp only [hcp] at h; exact Option.noConfusion h
    | some p =>
      simp only [hcp] at h
      obtain ⟨hplen, hpfind⟩ := checkRow_sound tgt row pos p hcp
      obtain ⟨ihlen, ihfind⟩ := checkRows_sound tgt rest p p2 h
      constructor
      · simp only [flattenRows, List.length_append]; omega
      · intro s e hf
        simp only [findInRows] at hf
        simp only [flattenRows]
        cases hfp : findInRow tgt row with
        | some r =>
          simp only [hfp, Option.some.injEq] at hf
          subst hf
          exact RangeOK_append_left tgt _ _ pos s e (hpfind s e hfp)
        | none =>
          simp only [hfp] at hf
          apply RangeOK_append_right
          rw [← hplen]
          exact ihfind s e hf

theorem checkRow_sound (tgt : List Char) :
    ∀ (row : List (List SElem)) (pos p2 : Nat),
      checkRow pos row = some p2 →
      p2 = pos + (flattenRow row).length
      ∧ ∀ s e, findInRow tgt row = some (s, e) →
          RangeOK tgt (flattenRow row) pos s e
  | [] => by
    intro pos p2 h
    simp only [checkRow, Option.some.injEq] at h
    refine ⟨by simp [flattenRow, h], ?_⟩
    intro s e hf
    simp [findInRow] at hf
  | cell :: rest => by
    intro pos p2 h
    simp only [checkRow] at h
    cases hcp : checkElems pos cell with
    | none => simp only [hcp] at h; exact Option.noConfusion h
    | some p =>
      simp only [hcp] at h
      obtain ⟨hplen, hpfind⟩ := checkElems_sound tgt cell pos p hcp
      obtain ⟨ihlen, ihfind⟩ := checkRow_sound tgt rest p p2 h
      constructor
      · simp only [flattenRow, List.length_append]; omega
      · intro s e hf
        simp only [findInRow] at hf
        simp only [flattenRow]
        cases hfp : findTextRange tgt cell with
        | some r =>
          simp only [hfp, Option.some.injEq] at hf
          subst hf
          exact RangeOK_append_left tgt _ _ pos s e (hpfind s e hfp)
        | none =>
          simp only [hfp] at hf
          apply RangeOK_append_right
          rw [← hplen]
          exact ihfind s e hf

end

/-- Claim C3 (amended): for every well-formed document (text-run start
indices consistent with the flattened text, base offset `base`) and every
annotation whose non-empty anchor text is found by the per-run search (i.e.
occurs verbatim within a single text run), the resolver returns exactly one
`CommentedRange`, with `end = start + length(anchor)` and the document
substring at `[start, end)` equal to the anchor text; annotations with an
empty or absent anchor, or whose anchor is not found, contribute none. -/
theorem resolver_single_run_correct (elems : List SElem) (c : Comment)
    (base p2 : Nat) (hwf : checkElems base elems = some p2) :
    (∀ anch s e, c.anchor = some anch → anch ≠ [] →
      findTextRange anch elems = some (s, e) →
      find_commented_ranges elems [c]
        = [⟨s, e, c.comment_id, c.content, anch⟩]
      ∧ e = s + anch.length
      ∧ base ≤ s
      ∧ ((flattenElems elems).drop (s - base)).take anch.length = anch)
    ∧ (∀ anch, c.anchor = some anch →
        (anch = [] ∨ findTextRange anch elems = none) →
        find_commented_ranges elems [c] = [])
    ∧ (c.anchor = none → find_commented_ranges elems [c] = []) := by
  refine ⟨?_, ?_, ?_⟩
  · intro anch s e ha hne hfind
    obtain ⟨_, hrok⟩ := checkElems_sound anch elems base p2 hwf
    obtain ⟨h1, h2, h3, h4⟩ := hrok s e hfind
    refine ⟨?_, h1, h2, h4⟩
    simp [find_commented_ranges, ha, hne, hfind]
  · intro anch ha hcase
    rcases hcase with hnil | hnone
    · subst hnil
      simp [find_commented_ranges, ha]
    · simp [find_commented_ranges, ha, hnone]
  · intro ha
    simp [find_commented_ranges, ha]

/-- A well-formed two-run paragraph: runs `"ab"` at index 1 and `"cd"` at
index 3. -/
def docC3x : List SElem :=
  [SElem.paragraph [⟨some 1, some ['a', 'b']⟩, ⟨some 3, some ['c', 'd']⟩]
    (some 5)]

/-- Claim C3 counterexample: the anchor `"bc"` occurs verbatim in the
well-formed document `docC3x` (its flattened text is `"abcd"`), but it spans
two text runs, so the resolver returns no `CommentedRange` at all instead of
exactly one. -/
theorem resolver_counterexample :
    checkElems 1 docC3x = some 5
    ∧ ((flattenElems docC3x).drop 1).take 2 = ['b', 'c']
    ∧ find_commented_ranges docC3x [⟨"c1", "x", some ['b', 'c']⟩] = [] := by
  refine ⟨?_, ?_, ?_⟩ <;>
    simp [docC3x, checkElems, checkPara, flattenElems, flattenPara,
      find_commented_ranges, findTextRange, findInParagraph, substrIdx,
      isPrefixL]

/-- A well-formed document with a paragraph (`"ab"` at 1) followed by a
one-cell table whose paragraph holds `"cd"` at 3. -/
def docC3w : List SElem :=
  [SElem.paragraph [⟨some 1, some ['a', 'b']⟩] (some 3),
   SElem.table [[[SElem.paragraph [⟨some 3, some ['c', 'd']⟩] (some 5)]]]
     (some 6)]

def commentC3w : Comment := ⟨"c9", "y", some ['c', 'd']⟩

/-- Claim C3 witness: on `docC3w` the anchor `"cd"` is found inside the
table cell at `[3,5)`; the resolver returns exactly that one range and the
flattened document text at `[3,5)` is `"cd"`. -/
theorem resolver_single_run_correct_witness :
    find_commented_ranges docC3w [commentC3w]
      = [⟨3, 5, "c9", "y", ['c', 'd']⟩]
    ∧ (5 : Nat) = 3 + (['c', 'd'] : List Char).length
    ∧ (1 : Nat) ≤ 3
    ∧ ((flattenElems docC3w).drop (3 - 1)).take
        (['c', 'd'] : List Char).length = ['c', 'd'] := by
  have hwf : checkElems 1 docC3w = some 5 := by
    simp [docC3w, checkElems, checkRows, checkRow, checkPara]
  have hfind : findTextRange ['c', 'd'] docC3w = some (3, 5) := by
    simp [docC3w, findTextRange, findInRows, findInRow, findInParagraph,
      substrIdx, isPrefixL]
  exact (resolver_single_run_correct docC3w commentC3w 1 5 hwf).1
    ['c', 'd'] 3 5 rfl (by decide) hfind

/-! ## `CommentManager._find_text_in_document`

The attribution-time search: per top-level paragraph, concatenate all text
runs, lowercase both sides, and collect every occurrence (stepping past each
match).  Tables are skipped.  The `while True` loop is modelled with fuel
`length + 1`, which bounds the iteration count whenever the search text is
non-empty (the Python loop does not terminate on an empty search text). -/

structure TextMatch where
  paragraph_index : Nat
  doc_start : Nat
  length : Nat
  excerpt : List Char
deriving DecidableEq

/-- Python `hay.find(tgt, pos)` (`none` for `-1`). -/
def pyFindFrom (hay tgt : List Char) (pos : Nat) : Option Nat :=
  if pos ≤ hay.length then (substrIdx tgt (hay.drop pos)).map (· + pos)
  else none

def findAllAux (hay tgt : List Char) : Nat → Nat → List Nat
  | 0, _ => []
  | fuel + 1, pos =>
    match pyFindFrom hay tgt pos with
    | none => []
    | some idx => idx :: findAllAux hay tgt fuel (idx + tgt.length)

def findAllOccurrences (hay tgt : List Char) : List Nat :=
  findAllAux hay tgt (hay.length + 1) 0

/-- First element carrying a `startIndex` key. -/
def firstStartIndex : List ParaElement → Option Nat
  | [] => none
  | e :: rest =>
    match e.startIndex with
    | some n => some n
    | none => firstStartIndex rest

/-- The `text_parts` list: contents of the elements that have a text run. -/
def textParts : List ParaElement → List (List Char)
  | [] => []
  | e :: rest =>
    match e.textRun with
    | some txt => txt :: textParts rest
    | none => textParts rest

/-- `full_text[max(0,idx-40):min(len,idx+len(search)+40)].replace('\n',' ').strip()`. -/
def pyExcerpt (fullText tgt : List Char) (idx : Nat) : List Char :=
  pyStrip (((fullText.take (min fullText.length (idx + tgt.length + 40))).drop
    (idx - 40)).map (fun c => if c = '\n' then ' ' else c))

/-- All matches within one paragraph; `(start_index or 1)` maps both a missing
and a zero start index to 1. -/
def paraMatches (paraIdx : Nat) (startIndex : Option Nat)
    (fullText tgt : List Char) : List TextMatch :=
  (findAllOccurrences (lowerL fullText) (lowerL tgt)).map (fun idx =>
    { paragraph_index := paraIdx,
      doc_start :=
        (match startIndex with
         | some n => if n = 0 then 1 else n
         | none => 1) + idx,
      length := tgt.length,
      excerpt := pyExcerpt fullText tgt idx })

def find_text_in_document_aux (tgt : List Char) :
    List SElem → Nat → List TextMatch
  | [], _ => []
  | SElem.paragraph es _ :: rest, pIdx =>
    if (textParts es).isEmpty then find_text_in_document_aux tgt rest (pIdx + 1)
    else
      paraMatches pIdx (firstStartIndex es) (textParts es).flatten tgt
        ++ find_text_in_document_aux tgt rest (pIdx + 1)
  | SElem.table _ _ :: rest, pIdx => find_text_in_document_aux tgt rest pIdx

def find_text_in_document (elems : List SElem) (tgt : List Char) :
    List TextMatch :=
  find_text_in_document_aux tgt elems 0

def isParagraph : SElem → Bool
  | .paragraph _ _ => true
  | .table _ _ => false

theorem findInParagraph_exists_run (tgt : List Char) :
    ∀ (es : List ParaElement) (r : Nat × Nat),
    findInParagraph tgt es = some r →
    ∃ txt ∈ textParts es, (substrIdx tgt txt).isSome := by
  intro es
  induction es with
  | nil => intro r h; simp [findInParagraph] at h
  | cons el rest ih =>
    intro r h
    simp only [findInParagraph] at h
    cases htr : el.textRun with
    | none =>
      simp only [htr] at h
      obtain ⟨txt, hmem, hsome⟩ := ih r h
      exact ⟨txt, by simp [textParts, htr, hmem], hsome⟩
    | some txt =>
      simp only [htr] at h
      cases hsi : substrIdx tgt txt with
      | some off =>
        exact ⟨txt, by simp [textParts, htr], by simp [hsi]⟩
      | none =>
        simp only [hsi] at h
        obtain ⟨txt2, hmem, hsome⟩ := ih r h
        exact ⟨txt2, by simp [textParts, htr, hmem], hsome⟩

theorem mem_flatten_decomp (txt : List Char) :
    ∀ (L : List (List Char)), txt ∈ L →
    ∃ pre post, L.flatten = pre ++ (txt ++ post) := by
  intro L
  induction L with
  | nil => intro h; simp at h
  | cons a rest ih =>
    intro h
    rcases List.mem_cons.mp h with rfl | hmem
    · exact ⟨[], rest.flatten, by simp⟩
    · obtain ⟨pre, post, hflat⟩ := ih hmem
      exact ⟨a ++ pre, post, by simp [hflat, List.append_assoc]⟩

theorem substrIdx_lower_join (tgt txt : List Char) (L : List (List Char))
    (hmem : txt ∈ L) (hsome : (substrIdx tgt txt).isSome) :
    (substrIdx (lowerL tgt) (lowerL L.flatten)).isSome := by
  obtain ⟨i, hi⟩ := Option.isSome_iff_exists.mp hsome
  obtain ⟨hb, hsub⟩ := substrIdx_sound tgt txt i hi
  obtain ⟨pre, post, hflat⟩ := mem_flatten_decomp txt L hmem
  have hocc : ((L.flatten).drop (pre.length + i)).take tgt.length = tgt := by
    rw [hflat, drop_append_add, take_drop_append_left _ _ _ _ hb]
    exact hsub
  have hocc2 : ((lowerL L.flatten).drop (pre.length + i)).take
      (lowerL tgt).length = lowerL tgt := by
    have hmap := congrArg (List.map Char.toLower) hocc
    rw [List.map_take, List.map_drop] at hmap
    simpa [lowerL] using hmap
  exact substrIdx_complete (lowerL tgt) (lowerL L.flatten) (pre.length + i) hocc2

theorem find_text_aux_ne_nil (tgt : List Char) :
    ∀ (elems : List SElem) (pIdx : Nat),
    (∀ el ∈ elems, isParagraph el = true) →
    ∀ s e, findTextRange tgt elems = some (s, e) →
    find_text_in_document_aux tgt elems pIdx ≠ [] := by
  intro elems
  induction elems with
  | nil => intro pIdx _ s e h; simp [findTextRange] at h
  | cons el rest ih =>
    intro pIdx hpar s e h
    cases el with
    | table rows ei =>
      have := hpar (SElem.table rows ei) (List.mem_cons_self _ _)
      simp [isParagraph] at this
    | paragraph es ei =>
      simp only [findTextRange] at h
      cases hfp : findInParagraph tgt es with
      | some r =>
        obtain ⟨txt, hmem, hsome⟩ := findInParagraph_exists_run tgt es r hfp
        have hparts : ¬(textParts es).isEmpty = true := by
          cases hp : textParts es with
          | nil => rw [hp] at hmem; simp at hmem
          | cons a b => simp [hp]
        have hflatsome := substrIdx_lower_join tgt txt (textParts es) hmem hsome
        simp only [find_text_in_document_aux, hparts, if_false]
        intro hcontra
        have hpm : paraMatches pIdx (firstStartIndex es)
            (textParts es).flatten tgt ≠ [] := by
          unfold paraMatches findAllOccurrences
          simp only [ne_eq, List.map_eq_nil_iff]
          rw [findAllAux]
          have hpf : pyFindFrom (lowerL (textParts es).flatten) (lowerL tgt) 0
              = (substrIdx (lowerL tgt) (lowerL (textParts es).flatten)) := by
            simp [pyFindFrom]
          rw [hpf]
          obtain ⟨j, hj⟩ := Option.isSome_iff_exists.mp hflatsome
          rw [hj]
          simp
        exact hpm (List.append_eq_nil.mp hcontra).1
      | none =>
        simp only [hfp] at h
        have hrest : ∀ el ∈ rest, isParagraph el = true := by
          intro x hx; exact hpar x (List.mem_cons_of_mem _ hx)
        have := ih (pIdx + 1) hrest s e h
        simp only [find_text_in_document_aux]
        by_cases hparts : (textParts es).isEmpty = true
        · simpa [hparts] using this
        · simp only [hparts, if_false]
          intro hcontra
          exact this (List.append_eq_nil.mp hcontra).2

/-- A document whose only text (`"hello"` at index 5) lives inside a table
cell. -/
def docC10 : List SElem :=
  [SElem.table
    [[[SElem.paragraph [⟨some 5, some ['h', 'e', 'l', 'l', 'o']⟩] (some 11)]]]
    (some 12)]

/-- Claim C10 counterexample: the resolver's search recurses into table
cells and finds `"hello"` at `[5,10)`, but the attribution-time search skips
non-paragraph elements entirely and finds nothing — so the attribution
search does not match strictly more inputs than the resolver's. -/
theorem attribution_search_counterexample :
    findTextRange ['h', 'e', 'l', 'l', 'o'] docC10 = some (5, 10)
    ∧ find_text_in_document docC10 ['h', 'e', 'l', 'l', 'o'] = [] := by
  constructor
  · simp [docC10, findTextRange, findInRows, findInRow, findInParagraph,
      substrIdx, isPrefixL]
  · rfl

/-- A one-paragraph document with the single run `"Hi"` at index 1. -/
def docC10case : List SElem :=
  [SElem.paragraph [⟨some 1, some ['H', 'i']⟩] (some 4)]

/-- Claim C10 (amended): among documents whose top-level elements are all
paragraphs, the attribution-time search finds a match whenever the
resolver's per-run case-sensitive search does, and it additionally matches
occurrences that differ only in letter case or that span multiple runs of
one paragraph; but it does not cover the resolver's table recursion, so it
is not strictly more permissive on arbitrary documents. -/
theorem attribution_search_vs_resolver :
    (∀ (elems : List SElem) (tgt : List Char) (s e : Nat), tgt ≠ [] →
      (∀ el ∈ elems, isParagraph el = true) →
      findTextRange tgt elems = some (s, e) →
      find_text_in_document elems tgt ≠ [])
    ∧ (findTextRange ['h', 'i'] docC10case = none
       ∧ find_text_in_document docC10case ['h', 'i']
         = [⟨0, 1, 2, ['H', 'i']⟩])
    ∧ (findTextRange ['b', 'c'] docC3x = none
       ∧ find_text_in_document docC3x ['b', 'c']
         = [⟨0, 2, 2, ['a', 'b', 'c', 'd']⟩]) := by
  refine ⟨?_, ⟨?_, ?_⟩, ⟨?_, ?_⟩⟩
  · intro elems tgt s e _ hpar hfind
    exact find_text_aux_ne_nil tgt elems 0 hpar s e hfind
  · simp [docC10case, findTextRange, findInParagraph, substrIdx, isPrefixL]
  · rfl
  · simp [docC3x, findTextRange, findInParagraph, substrIdx, isPrefixL]
  · rfl

/-- Claim C10 witness: on the all-paragraph document `docC10case` the
resolver finds `"Hi"` at `[1,3)`, and the attribution search indeed returns
a non-empty match list. -/
theorem attribution_search_vs_resolver_witness :
    (['H', 'i'] : List Char) ≠ []
    ∧ (∀ el ∈ docC10case, isParagraph el = true)
    ∧ findTextRange ['H', 'i'] docC10case = some (1, 3)
    ∧ find_text_in_document docC10case ['H', 'i'] ≠ [] := by
  have hf : findTextRange ['H', 'i'] docC10case = some (1, 3) := by
    simp [docC10case, findTextRange, findInParagraph, substrIdx, isPrefixL]
  refine ⟨by decide, by decide, hf, ?_⟩
  exact attribution_search_vs_resolver.1 docC10case ['H', 'i'] 1 3
    (by decide) (by decide) hf

/-! ## `MergeOptions`, exceptions, and the external editor

Exceptions are a datatype; each external call the orchestrator makes is
modelled by its outcome, a field of `Editor` (`Except.error` = the call
raised).  `merge_content` then becomes a total function returning the
structured result dictionary together with the list of mutation batches that
were actually applied to the document. -/

structure MergeOptions where
  preserve_comments : Bool := true
  comment_strategy : String := "preserve"
  add_source_comment : Bool := true
  add_inline_attribution : Bool := true
  source_description : Option (List Char) := none
  target_section : Option (List Char) := none
deriving DecidableEq

inductive Exc where
  | notFound (msg : String)
  | permissionDenied (msg : String)
  | indexError (msg : String)
  | other (msg : String)
deriving DecidableEq

/-- Python `str(e)`. -/
def Exc.message : Exc → String
  | .notFound m => m
  | .permissionDenied m => m
  | .indexError m => m
  | .other m => m

structure Editor where
  extract_doc_id : Except Exc String
  extract_tab_id : Except Exc (Option String)
  get_document : Except Exc (Option (List SElem))
  analyze_sections : Except Exc (List SectionInfo)
  get_comments : Except Exc (List Comment)
  batch_update : Except Exc Unit
  create_comment_with_context : Except Exc (Option String)
  create_comment : Except Exc String

/-! ## `ContentInserter._simple_insert` (Case A) -/

/-- The request batch built by `_simple_insert`: insert, force
`NORMAL_TEXT` over the inserted span, and — when inline attribution is
requested with a truthy attribution text — append ` (from: …)` right after
the inserted content and style it italic + purple.  `tabId` is attached to
each location only when truthy. -/
def simple_insert_requests (index : Nat) (content : List Char)
    (tab_id : Option String) (add_inline_attribution : Bool)
    (attribution_text : Option (List Char)) : List Request :=
  let location_tab := if truthyS tab_id then tab_id else none
  let base : List Request :=
    [.insertText index location_tab content,
     .updateParagraphStyle index (index + content.length) "NORMAL_TEXT"]
  if add_inline_attribution && truthyL attribution_text then
    let d := attribution_text.getD []
    let attribution_full := " (from: ".data ++ d ++ ")".data
    let attribution_index := index + content.length
    base ++
      [.insertText attribution_index location_tab attribution_full,
       .updateTextStyle attribution_index
         (attribution_index + attribution_full.length) true ⟨0.6, 0.2, 0.8⟩]
  else base

/-- `_simple_insert`: builds the batch and executes it; an exception from
the batch update is caught and reported as `False` (and the atomic batch is
then not applied, so no batch is recorded). -/
def simple_insert (ed : Editor) (index : Nat) (content : List Char)
    (tab_id : Option String) (add_inline_attribution : Bool)
    (attribution_text : Option (List Char)) : Bool × List (List Request) :=
  match ed.batch_update with
  | .ok _ =>
    (true, [simple_insert_requests index content tab_id
      add_inline_attribution attribution_text])
  | .error _ => (false, [])

/-- `ContentInserter.insert_content`. -/
def insert_content (ed : Editor) (index : Nat) (content : List Char)
    (tab_id : Option String) (commented_range : Option CommentedRange)
    (add_inline_attribution : Bool) (attribution_text : Option (List Char)) :
    Bool × List (List Request) :=
  match commented_range with
  | some cr =>
    match ed.batch_update with
    | .ok _ => (true, [insert_with_comment_preservation_requests cr content])
    | .error _ => (false, [])
  | none =>
    simple_insert ed index content tab_id add_inline_attribution
      attribution_text

/-- The result dictionary of `merge_content`; absent keys keep their
defaults. -/
structure MergeResult where
  success : Bool
  message : String
  requires_user_decision : Bool := false
  affected_comments : List String := []
  insertion_point : Option InsertionPoint := none
  options : List String := []
  comments_preserved : Option Nat := none
  new_comment_id : Option String := none
  error : Option String := none
deriving DecidableEq

/-- `calculate_insertion_point` as called through the editor: fetch the
section analysis, the document and the comments (any of which may raise),
then run the pure computation (whose own `IndexError` is re-raised). -/
def calculate_insertion_point_ed (ed : Editor)
    (section_name : Option (List Char)) (strategy : String) :
    Except Exc InsertionPoint := do
  let sections ← ed.analyze_sections
  let content ← ed.get_document
  let comments ← ed.get_comments
  match calculate_insertion_point content sections comments section_name
      strategy with
  | .ok ip => .ok ip
  | .error m => .error (.indexError m)

/-- `ContentInserter.merge_content`.  The outer `try/except Exception`
catches every exception and turns it into a structured result; the second
component collects the batches actually applied to the document. -/
def merge_content (ed : Editor) (content : List Char)
    (section_hint : Option (List Char)) (options : Option MergeOptions) :
    MergeResult × List (List Request) :=
  let opts := options.getD {}
  match ed.extract_doc_id with
  | .error e =>
    ({ success := false, message := "Error: " ++ e.message,
       error := some e.message }, [])
  | .ok _doc_id =>
    match ed.extract_tab_id with
    | .error e =>
      ({ success := false, message := "Error: " ++ e.message,
         error := some e.message }, [])
    | .ok tab_id =>
      match calculate_insertion_point_ed ed
          (if truthyL section_hint then section_hint else opts.target_section)
          (if opts.preserve_comments then "safe" else "simple") with
      | .error e =>
        ({ success := false, message := "Error: " ++ e.message,
           error := some e.message }, [])
      | .ok insertion_point =>
        if insertion_point.affected_comments ≠ []
            ∧ opts.comment_strategy = "ask" then
          ({ success := false, requires_user_decision := true,
             affected_comments := insertion_point.affected_comments,
             insertion_point := some insertion_point,
             options := ["insert_before", "insert_after",
               "update_with_preservation"],
             message := "Insertion would affect "
               ++ toString insertion_point.affected_comments.length
               ++ " comment(s)" }, [])
        else
          let formatted_content := format_content_for_insertion content
          let res := insert_content ed insertion_point.index
            formatted_content tab_id none opts.add_inline_attribution
            opts.source_description
          if res.1 = false then
            ({ success := false, message := "Failed to insert content",
               insertion_point := some insertion_point }, res.2)
          else
            let new_comment_id :=
              if opts.add_source_comment && truthyL opts.source_description
              then
                match ed.create_comment_with_context with
                | .ok (some cid) => some cid
                | .ok none =>
                  match ed.create_comment with
                  | .ok cid => some cid
                  | .error _ => none
                | .error _ => none
              else none
            ({ success := true, insertion_point := some insertion_point,
               comments_preserved :=
                 some insertion_point.affected_comments.length,
               new_comment_id := new_comment_id,
               message := "Content inserted successfully. "
                 ++ insertion_point.reason }, res.2)

/-- Claim C4: the Case A batch is, in order, `insertText(i, c)`; a
`NORMAL_TEXT` paragraph-style step over exactly `[i, i + length c)`; and,
when inline attribution is requested with a non-empty description `d`,
`insertText` of `" (from: " + d + ")"` at exactly `i + length c` followed by
an italic + purple text-style step over exactly the appended span — the
attribution offsets are relative to the end of the just-inserted content.
Without attribution the batch is just the first two steps. -/
theorem case_a_batch (i : Nat) (c d : List Char) (tab : Option String)
    (hd : d ≠ []) :
    simple_insert_requests i c tab true (some d)
      = [Request.insertText i (if truthyS tab then tab else none) c,
         Request.updateParagraphStyle i (i + c.length) "NORMAL_TEXT",
         Request.insertText (i + c.length) (if truthyS tab then tab else none)
           (" (from: ".data ++ d ++ ")".data),
         Request.updateTextStyle (i + c.length)
           (i + c.length + (" (from: ".data ++ d ++ ")".data).length) true
           ⟨0.6, 0.2, 0.8⟩]
    ∧ ∀ att, simple_insert_requests i c tab false att
      = [Request.insertText i (if truthyS tab then tab else none) c,
         Request.updateParagraphStyle i (i + c.length) "NORMAL_TEXT"] := by
  constructor
  · have htr : truthyL (some d) = true := by
      cases d with
      | nil => exact absurd rfl hd
      | cons a t => rfl
    simp [simple_insert_requests, htr]
  · intro att
    simp [simple_insert_requests]

/-- Claim C4 witness: offset 3, content `"x"`, description `"m"`, no tab. -/
theorem case_a_batch_witness :
    (['m'] : List Char) ≠ []
    ∧ simple_insert_requests 3 ['x'] none true (some ['m'])
      = [Request.insertText 3 (if truthyS none then none else none) ['x'],
         Request.updateParagraphStyle 3 (3 + (['x'] : List Char).length)
           "NORMAL_TEXT",
         Request.insertText (3 + (['x'] : List Char).length)
           (if truthyS none then none else none)
           (" (from: ".data ++ ['m'] ++ ")".data),
         Request.updateTextStyle (3 + (['x'] : List Char).length)
           (3 + (['x'] : List Char).length
             + (" (from: ".data ++ ['m'] ++ ")".data).length) true
           ⟨0.6, 0.2, 0.8⟩] :=
  ⟨by decide, (case_a_batch 3 ['x'] ['m'] none (by decide)).1⟩

/-- Claim C6: whenever the planned insertion point has a non-empty
affected-comments list and `comment_strategy = 'ask'`, `merge_content`
returns the decision payload (`success = false`, the requires-user-decision
flag, the affected ids, the three candidate strategies) and applies no batch
to the document: the applied-batch list is empty and folding it over any
buffer leaves the buffer unchanged. -/
theorem merge_ask_no_mutation (ed : Editor) (content : List Char)
    (section_hint : Option (List Char)) (opts : MergeOptions) (did : String)
    (tab : Option String) (ip : InsertionPoint)
    (h1 : ed.extract_doc_id = .ok did)
    (h2 : ed.extract_tab_id = .ok tab)
    (h3 : calculate_insertion_point_ed ed
      (if truthyL section_hint then section_hint else opts.target_section)
      (if opts.preserve_comments then "safe" else "simple") = .ok ip)
    (h4 : ip.affected_comments ≠ [])
    (h5 : opts.comment_strategy = "ask") :
    merge_content ed content section_hint (some opts)
      = ({ success := false, requires_user_decision := true,
           affected_comments := ip.affected_comments,
           insertion_point := some ip,
           options := ["insert_before", "insert_after",
             "update_with_preservation"],
           message := "Insertion would affect "
             ++ toString ip.affected_comments.length ++ " comment(s)" }, [])
    ∧ ∀ buf : List Char,
        (merge_content ed content section_hint (some opts)).2.foldl
          applyRequests buf = buf := by
  have hmain : merge_content ed content section_hint (some opts)
      = ({ success := false, requires_user_decision := true,
           affected_comments := ip.affected_comments,
           insertion_point := some ip,
           options := ["insert_before", "insert_after",
             "update_with_preservation"],
           message := "Insertion would affect "
             ++ toString ip.affected_comments.length ++ " comment(s)" }, []) := by
    unfold merge_content
    simp only [Option.getD_some, h1, h2, h3]
    rw [if_pos ⟨h4, h5⟩]
  refine ⟨hmain, ?_⟩
  intro buf
  rw [hmain]
  rfl

def edAsk : Editor :=
  { extract_doc_id := .ok "doc1",
    extract_tab_id := .ok none,
    get_document := .ok (some sampleDocC2),
    analyze_sections := .ok sampleSectionsC2,
    get_comments := .ok sampleCommentsC2,
    batch_update := .ok (),
    create_comment_with_context := .ok none,
    create_comment := .ok "newc" }

def optsAsk : MergeOptions :=
  { comment_strategy := "ask", source_description := some ['m'] }

theorem calc_ed_sampleC2 :
    calculate_insertion_point_ed edAsk (some nameNotesC2) "safe"
      = .ok wipC2 := by
  unfold calculate_insertion_point_ed
  rw [show edAsk.analyze_sections = .ok sampleSectionsC2 from rfl,
    show edAsk.get_document = .ok (some sampleDocC2) from rfl,
    show edAsk.get_comments = .ok sampleCommentsC2 from rfl]
  simp only [Bind.bind, Except.bind]
  rw [calc_sampleC2]

/-- Claim C6 witness: on the concrete world where the planner reports
`["c1"]` affected and the strategy is `'ask'`, `merge_content` returns the
decision payload and applies no batch. -/
theorem merge_ask_no_mutation_witness :
    merge_content edAsk ['h', 'i'] (some nameNotesC2) (some optsAsk)
      = ({ success := false, requires_user_decision := true,
           affected_comments := wipC2.affected_comments,
           insertion_point := some wipC2,
           options := ["insert_before", "insert_after",
             "update_with_preservation"],
           message := "Insertion would affect "
             ++ toString wipC2.affected_comments.length ++ " comment(s)" }, [])
    ∧ (merge_content edAsk ['h', 'i'] (some nameNotesC2) (some optsAsk)).2.foldl
        applyRequests ['q'] = ['q'] := by
  have h3w : calculate_insertion_point_ed edAsk
      (if truthyL (some nameNotesC2) then some nameNotesC2
       else optsAsk.target_section)
      (if optsAsk.preserve_comments then "safe" else "simple")
      = .ok wipC2 := by
    rw [show (if truthyL (some nameNotesC2) then some nameNotesC2
        else optsAsk.target_section) = some nameNotesC2 from rfl]
    rw [show (if optsAsk.preserve_comments = true then "safe" else "simple")
        = "safe" from rfl]
    exact calc_ed_sampleC2
  have h := merge_ask_no_mutation edAsk ['h', 'i'] (some nameNotesC2) optsAsk
    "doc1" none wipC2 rfl rfl h3w (by decide) rfl
  exact ⟨h.1, h.2 ['q']⟩

theorem string_append_ne_empty (s t : String) (h : s.length ≠ 0) :
    s ++ t ≠ "" := by
  intro hc
  have hlen : (s ++ t).length = 0 := by rw [hc]; rfl
  rw [String.length_append] at hlen
  omega

theorem string_append3_ne_empty (s t u : String) (h : s.length ≠ 0) :
    s ++ t ++ u ≠ "" :=
  string_append_ne_empty (s ++ t) u
    (by rw [String.length_append]; omega)

/-- Claim C7 (amended): `merge_content` never lets any exception escape —
it is a total function into structured results; every failure carries
`success = false` and a non-empty message (error detail where applicable),
and collaborator exceptions — `NotFound` and `PermissionDenied` included —
are caught and surfaced as such a structured result (with the raw message as
`error`) rather than propagating, with no batch applied. -/
theorem merge_failures_structured (ed : Editor) (content : List Char)
    (section_hint : Option (List Char)) (options : Option MergeOptions) :
    ((merge_content ed content section_hint options).1.success = false →
      (merge_content ed content section_hint options).1.message ≠ "")
    ∧ (∀ e : Exc, ed.extract_doc_id = .error e →
        (merge_content ed content section_hint options).1
          = { success := false, message := "Error: " ++ e.message,
              error := some e.message }
        ∧ (merge_content ed content section_hint options).2 = []) := by
  constructor
  · cases h1 : ed.extract_doc_id with
    | error e =>
      have hm : merge_content ed content section_hint options
          = ({ success := false, message := "Error: " ++ e.message,
               error := some e.message }, []) := by
        unfold merge_content; rw [h1]
      rw [hm]
      intro _
      exact string_append_ne_empty "Error: " e.message (by decide)
    | ok did =>
      cases h2 : ed.extract_tab_id with
      | error e =>
        have hm : merge_content ed content section_hint options
            = ({ success := false, message := "Error: " ++ e.message,
                 error := some e.message }, []) := by
          unfold merge_content; rw [h1, h2]
        rw [hm]
        intro _
        exact string_append_ne_empty "Error: " e.message (by decide)
      | ok tab =>
        cases h3 : calculate_insertion_point_ed ed
            (if truthyL section_hint then section_hint
             else (options.getD {}).target_section)
            (if (options.getD {}).preserve_comments then "safe"
             else "simple") with
        | error e =>
          have hm : merge_content ed content section_hint options
              = ({ success := false, message := "Error: " ++ e.message,
                   error := some e.message }, []) := by
            unfold merge_content; simp only []; rw [h1, h2, h3]
          rw [hm]
          intro _
          exact string_append_ne_empty "Error: " e.message (by decide)
        | ok ip =>
          by_cases h4 : ip.affected_comments ≠ []
              ∧ (options.getD {}).comment_strategy = "ask"
          · have hm : merge_content ed content section_hint options
                = ({ success := false, requires_user_decision := true,
                     affected_comments := ip.affected_comments,
                     insertion_point := some ip,
                     options := ["insert_before", "insert_after",
                       "update_with_preservation"],
                     message := "Insertion would affect "
                       ++ toString ip.affected_comments.length
                       ++ " comment(s)" }, []) := by
              unfold merge_content; simp only []; rw [h1, h2, h3]
              simp [h4]
            rw [hm]
            intro _
            exact string_append3_ne_empty "Insertion would affect "
              (toString ip.affected_comments.length) " comment(s)" (by decide)
          · cases hres : insert_content ed ip.index
                (format_content_for_insertion content) tab none
                (options.getD {}).add_inline_attribution
                (options.getD {}).source_description with
            | mk b batches =>
              cases b with
              | false =>
                have hm : merge_content ed content section_hint options
                    = ({ success := false,
                         message := "Failed to insert content",
                         insertion_point := some ip }, batches) := by
                  unfold merge_content; simp only []
                  rw [h1, h2, h3]
                  simp [h4, hres]
                rw [hm]
                intro _
                exact (by decide : ("Failed to insert content" : String) ≠ "")
              | true =>
                have hsucc : (merge_content ed content
                    section_hint options).1.success = true := by
                  unfold merge_content; simp only []
                  rw [h1, h2, h3]
                  simp [h4, hres]
                intro hcontra
                rw [hsucc] at hcontra
                exact absurd hcontra (by decide)
  · intro e he
    unfold merge_content
    rw [he]
    exact ⟨rfl, rfl⟩

def edNotFound : Editor :=
  { extract_doc_id := .ok "doc1",
    extract_tab_id := .ok none,
    get_document := .error (.notFound "File not found"),
    analyze_sections := .ok [],
    get_comments := .ok [],
    batch_update := .ok (),
    create_comment_with_context := .ok none,
    create_comment := .ok "x" }

/-- Claim C7 counterexample: a `NotFound` raised by the document fetch does
NOT propagate to the caller as a typed failure — the outer
`except Exception` catches it and `merge_content` returns the plain
structured error result. -/
theorem merge_notfound_caught_counterexample :
    merge_content edNotFound ['a'] none none
      = ({ success := false, message := "Error: File not found",
           error := some "File not found" }, []) := rfl

def edPermDenied : Editor :=
  { extract_doc_id := .error (.permissionDenied "permission denied"),
    extract_tab_id := .ok none,
    get_document := .ok none,
    analyze_sections := .ok [],
    get_comments := .ok [],
    batch_update := .ok (),
    create_comment_with_context := .ok none,
    create_comment := .ok "x" }

/-- Claim C7 witness: for a `PermissionDenied` raised while extracting the
document id, `merge_content` returns the structured error result with a
non-empty message and applies no batch. -/
theorem merge_failures_structured_witness :
    (merge_content edPermDenied ['a'] none none).1
      = { success := false, message := "Error: permission denied",
          error := some "permission denied" }
    ∧ (merge_content edPermDenied ['a'] none none).2 = []
    ∧ (merge_content edPermDenied ['a'] none none).1.message ≠ "" := by
  have h := merge_failures_structured edPermDenied ['a'] none none
  have h2 := h.2 (Exc.permissionDenied "permission denied") rfl
  refine ⟨h2.1, h2.2, h.1 ?_⟩
  rw [h2.1]

end GDocs
